import Mathlib

/-!
Verification development for the `weaver` multi-agent orchestrator.

The Python code under `src/weaver/` is shallowly embedded here:

* `conversation.py` (`Message`, `ConversationManager` with trimming,
  context windows and session export/import),
* `router.py` (`Router.route`),
* `cli.py` (`AGENT_COMMAND_PATTERN`, `extract_agent_command`, the
  `process_message` hop loop),
* `orchestrator.py` (the effect of `Weaver.chat_stream` on the
  conversation),
* `memory.py` (the shared notepad `write_shared` / `read_shared` /
  `delete_shared`).

Python peculiarities that matter are modelled explicitly: truthiness of
strings, ints and `None`; negative / zero slice indices such as
`xs[-k:]`; `datetime` timestamps at their serialized (ISO string)
precision; and the non-terminating character-budget loop of
`get_context_for_agent`, which is given an explicit fuel parameter
(`none` as the result means the loop never exits).
-/

namespace Weaver

/-! ### Python string helpers -/

/-- Whitespace characters recognized by Python's `str.strip` and the
regex class `\s` (ASCII range, which is all the repository uses). -/
def pyIsSpace (c : Char) : Bool :=
  c = ' ' || c = '\t' || c = '\n' || c = '\r' || c = '\x0b' || c = '\x0c'

/-- Python `str.lstrip()` on an exploded string. -/
def pyLstrip (s : List Char) : List Char :=
  s.dropWhile pyIsSpace

/-- Python `str.rstrip()` on an exploded string. -/
def pyRstrip (s : List Char) : List Char :=
  (s.reverse.dropWhile pyIsSpace).reverse

/-- Python `str.strip()` on an exploded string. -/
def pyStrip (s : List Char) : List Char :=
  pyRstrip (pyLstrip s)

/-- Python slice `l[-k:]` where `k` is an arbitrary (possibly zero or
negative) int expression: for `k > 0` it keeps the last `k` elements,
for `k = 0` the index is `-0 = 0` so the whole list is kept, and for
`k < 0` the index is the positive number `-k`, so `-k` leading elements
are dropped. -/
def pySliceFromNeg (k : Int) (l : List α) : List α :=
  if 0 < k then l.drop (l.length - k.toNat) else l.drop (-k).toNat

/-! ### Agents (`agents.py`) -/

/-- `AgentType` enum from `agents.py`. -/
inductive AgentType where
  | CLAUDE_CODE
  | LOCAL_FAST
  | LOCAL_SPECIALIZED
deriving DecidableEq, Repr

/-- The `.value` string of each enum member. -/
def AgentType.value : AgentType → String
  | .CLAUDE_CODE => "claude_code"
  | .LOCAL_FAST => "local_fast"
  | .LOCAL_SPECIALIZED => "local_specialized"

/-- `AgentType(v)`: the enum constructor lookup; `none` models the
`ValueError` raised on an unknown value. -/
def AgentType.ofValue (v : String) : Option AgentType :=
  if v = "claude_code" then some .CLAUDE_CODE
  else if v = "local_fast" then some .LOCAL_FAST
  else if v = "local_specialized" then some .LOCAL_SPECIALIZED
  else none

/-! ### Conversation data model (`conversation.py`) -/

/-- `Message` dataclass. `timestamp` is the `datetime` value modelled at
its serialized precision, i.e. as its ISO-format string; `metadata` is
the string-keyed dict with (JSON-serializable) string values. -/
structure Message where
  role : String
  content : String
  agent : Option AgentType
  timestamp : String
  metadata : List (String × String)
deriving DecidableEq, Repr

/-- `m.role == "system"`, the test used by trimming and windowing. -/
def isSystem (m : Message) : Bool :=
  m.role == "system"

/-- `ConversationManager` state: `messages`, `max_history`,
`session_id`. -/
structure ConversationManager where
  messages : List Message
  max_history : Nat
  session_id : String
deriving DecidableEq, Repr

/-- `ConversationManager(max_history=...)` with a fresh (time-derived)
session id. -/
def mkConversation (max_history : Nat) (session_id : String) : ConversationManager :=
  ⟨[], max_history, session_id⟩

/-- `Message.to_api_format`: the `{role, content}` projection. -/
def to_api_format (m : Message) : String × String :=
  (m.role, m.content)

/-- `ConversationManager._trim_history`: keep all system messages and
the most recent `max_history - len(system)` non-system ones; when that
count is `<= 0`, fall back to `system_msgs[-max_history:]`. -/
def trim_history (c : ConversationManager) : ConversationManager :=
  if c.messages.length ≤ c.max_history then c
  else
    let system_msgs := c.messages.filter (fun m => m.role == "system")
    let non_system := c.messages.filter (fun m => m.role != "system")
    let keep_count : Int := (c.max_history : Int) - system_msgs.length
    if 0 < keep_count then
      { c with messages := system_msgs ++ pySliceFromNeg keep_count non_system }
    else
      { c with messages := pySliceFromNeg (c.max_history : Int) system_msgs }

/-- `add_user_message(content, **metadata)`: append a user message (no
agent), then trim. `now` is the `datetime.now()` timestamp. -/
def add_user_message (c : ConversationManager) (content : String)
    (metadata : List (String × String)) (now : String) : ConversationManager :=
  trim_history { c with messages := c.messages ++ [⟨"user", content, none, now, metadata⟩] }

/-- `add_assistant_message(content, agent, **metadata)`: append an
assistant message attributed to `agent`, then trim. -/
def add_assistant_message (c : ConversationManager) (content : String)
    (agent : AgentType) (metadata : List (String × String)) (now : String) :
    ConversationManager :=
  trim_history
    { c with messages := c.messages ++ [⟨"assistant", content, some agent, now, metadata⟩] }

/-- `add_system_message(content)`: append a system message.  Note that
the source appends without calling `_trim_history`. -/
def add_system_message (c : ConversationManager) (content : String) (now : String) :
    ConversationManager :=
  { c with messages := c.messages ++ [⟨"system", content, none, now, []⟩] }

/-- Total `sum(len(m.content) for m in messages)`. -/
def totalChars (l : List Message) : Nat :=
  (l.map (fun m => m.content.length)).sum

/-- The `while total_chars > max_chars and len(messages) > 1` eviction
loop of `get_context_for_agent`, with explicit fuel.  Each iteration
pops the first non-system message; when there is none the body does
nothing and the loop re-tests an unchanged condition, so the Python
loop never exits — here the fuel runs out and the result is `none`. -/
def evictChars (fuel : Nat) (max_chars : Nat) (total : Nat) (msgs : List Message) :
    Option (List Message) :=
  match fuel with
  | 0 => none
  | fuel + 1 =>
    if max_chars < total ∧ 1 < msgs.length then
      match msgs.findIdx? (fun m => m.role != "system") with
      | some i =>
        match msgs.get? i with
        | some m => evictChars fuel max_chars (total - m.content.length) (msgs.eraseIdx i)
        | none => evictChars fuel max_chars total msgs
      | none => evictChars fuel max_chars total msgs
    else some msgs

/-- `get_context_for_agent(agent, max_messages, max_chars)`.  The
`agent` argument is unused by the body, as in the source.  Python
truthiness: `if max_messages` and `if max_chars` skip the limits when
the arguments are `None` or `0`.  The result is `none` when the
character-eviction loop does not terminate within `fuel` steps. -/
def get_context_for_agent (fuel : Nat) (c : ConversationManager) (_agent : AgentType)
    (max_messages : Option Nat) (max_chars : Option Nat) :
    Option (List (String × String)) :=
  let messages := c.messages
  let messages :=
    match max_messages with
    | some k =>
      if k ≠ 0 ∧ k < messages.length then
        let system_msgs := messages.filter (fun m => m.role == "system")
        let non_system := messages.filter (fun m => m.role != "system")
        let keep_count : Int := (k : Int) - system_msgs.length
        system_msgs ++ pySliceFromNeg keep_count non_system
      else messages
    | none => messages
  match max_chars with
  | some mc =>
    if mc ≠ 0 then
      (evictChars fuel mc (totalChars messages) messages).map (List.map to_api_format)
    else some (messages.map to_api_format)
  | none => some (messages.map to_api_format)

/-- `fork()`: a new manager with a reconstructed (deep) copy of every
message and a derived session id. -/
def fork (c : ConversationManager) (timeSuffix : String) : ConversationManager :=
  ⟨c.messages.map (fun m => ⟨m.role, m.content, m.agent, m.timestamp, m.metadata⟩),
   c.max_history, c.session_id ++ "_fork_" ++ timeSuffix⟩

/-! ### Session export / import (`conversation.py`) -/

/-- The JSON object `Message.to_dict` writes.  `agent` is `null` or the
enum value string; `timestamp` and `metadata` are `Option`s so that
`from_dict`'s handling of absent keys can be modelled. -/
structure MessageDict where
  role : String
  content : String
  agent : Option String
  timestamp : Option String
  metadata : Option (List (String × String))
deriving DecidableEq, Repr

/-- `Message.to_dict`. -/
def Message.to_dict (m : Message) : MessageDict :=
  { role := m.role
    content := m.content
    agent := m.agent.map AgentType.value
    timestamp := some m.timestamp
    metadata := some m.metadata }

/-- `Message.from_dict(data)`: `agent` is parsed only when
`data.get("agent")` is truthy (present and non-empty) and an unknown
value raises (`none`); a falsy timestamp defaults to `datetime.now()`
(the `now` argument); absent metadata defaults to `{}`. -/
def Message.from_dict (now : String) (d : MessageDict) : Option Message :=
  let ts :=
    match d.timestamp with
    | some s => if s = "" then now else s
    | none => now
  let md := d.metadata.getD []
  match d.agent with
  | some v =>
    if v = "" then some ⟨d.role, d.content, none, ts, md⟩
    else
      match AgentType.ofValue v with
      | some a => some ⟨d.role, d.content, some a, ts, md⟩
      | none => none
  | none => some ⟨d.role, d.content, none, ts, md⟩

/-- The JSON document written by `export_session`. -/
structure SessionFile where
  session_id : Option String
  exported_at : String
  message_count : Nat
  messages : List MessageDict
deriving DecidableEq, Repr

/-- `export_session(path)`: serialize session id and every message. -/
def export_session (c : ConversationManager) (exported_at : String) : SessionFile :=
  { session_id := some c.session_id
    exported_at := exported_at
    message_count := c.messages.length
    messages := c.messages.map Message.to_dict }

/-- `[f(x) for x in l]` where `f` may raise: any failure propagates. -/
def mapOption (f : α → Option β) : List α → Option (List β)
  | [] => some []
  | x :: xs =>
    match f x, mapOption f xs with
    | some y, some ys => some (y :: ys)
    | _, _ => none

/-- `ConversationManager.import_session(path)`: a fresh manager
(`max_history = 100`, fresh session id `freshSid`) whose session id is
overwritten by `data.get("session_id", ...)` and whose messages are the
parsed `data.get("messages", [])`. -/
def import_session (now : String) (freshSid : String) (f : SessionFile) :
    Option ConversationManager :=
  (mapOption (Message.from_dict now) f.messages).map fun msgs =>
    { messages := msgs, max_history := 100, session_id := f.session_id.getD freshSid }

/-! ### Shared notepad (`memory.py`) -/

/-- `Note` dataclass. -/
structure Note where
  id : String
  content : String
  author : String
  created_at : String
  tags : List String
deriving DecidableEq, Repr

/-- `WeaverMemory` state after falling back to local storage: the
ordered (most-recent-first) note list plus the writing author. -/
structure WeaverMemory where
  author : String
  notes : List Note
deriving DecidableEq, Repr

/-- `write_shared(content, note_id, tags)`: build a note (id defaults
to a fresh random token `freshId`) and insert it at the front of the
list; returns the new state and the note id.  An existing note with the
same id is not removed. -/
def write_shared (mem : WeaverMemory) (content : String) (note_id : Option String)
    (freshId : String) (tags : List String) (now : String) : WeaverMemory × String :=
  let nid := note_id.getD freshId
  ({ mem with notes := ⟨nid, content, mem.author, now, tags⟩ :: mem.notes }, nid)

/-- `read_shared(note_id)`: content of the first note with the id. -/
def read_shared (mem : WeaverMemory) (note_id : String) : Option String :=
  (mem.notes.find? (fun n => n.id == note_id)).map (fun n => n.content)

/-- `delete_shared(note_id)`: remove the first note with the id,
reporting whether one was found. -/
def delete_shared (mem : WeaverMemory) (note_id : String) : WeaverMemory × Bool :=
  match mem.notes.findIdx? (fun n => n.id == note_id) with
  | some i => ({ mem with notes := mem.notes.eraseIdx i }, true)
  | none => (mem, false)

/-! ### Directive extraction (`cli.py`)

`AGENT_COMMAND_PATTERN = re.compile(r"\n(/(?:claude|local|senior|junior)\s+.+?)$",
re.IGNORECASE | re.DOTALL)` and
`extract_agent_command` which searches it and splits the response.

`re.search` semantics for this pattern, worked out exactly: the match
starts at the leftmost index `j` with `s[j] = '\n'` such that `s[j+1]`
is `/` followed case-insensitively by one of the four token words, then
at least one whitespace character, then (because of `.+?`) at least one
further character of any kind (DOTALL) reaching an `$` position.  `$`
matches at the end of the string and also just before a final newline;
the lazy `.+?` therefore ends the group at the end of the string unless
the string ends with a newline that lies beyond the greedy whitespace
run, in which case the group stops just before that final newline. -/

/-- The four delegate token words of the alternation, in source order. -/
def tokClaude : List Char := ['c', 'l', 'a', 'u', 'd', 'e']

def tokLocal : List Char := ['l', 'o', 'c', 'a', 'l']

def tokSenior : List Char := ['s', 'e', 'n', 'i', 'o', 'r']

def tokJunior : List Char := ['j', 'u', 'n', 'i', 'o', 'r']

def delegateTokens : List (List Char) := [tokClaude, tokLocal, tokSenior, tokJunior]

/-- Case-insensitive "starts with": the `re.IGNORECASE` comparison of a
pattern word against the head of the subject. -/
def startsCI : List Char → List Char → Bool
  | [], _ => true
  | _ :: _, [] => false
  | t :: ts, c :: cs => (t.toLower == c.toLower) && startsCI ts cs

/-- Match of `/(?:claude|local|senior|junior)` at index `i`: returns the
index just past the token on success. -/
def tokenEndAt (s : List Char) (i : Nat) : Option Nat :=
  if s.get? i = some '/' then
    (delegateTokens.find? (fun t => startsCI t (s.drop (i + 1)))).map
      (fun t => i + 1 + t.length)
  else none

/-- First index `≥ i` holding a non-whitespace character (or the length
of the string): the end of the greedy `\s+` run starting at `i`. -/
def wsRunEnd (s : List Char) (i : Nat) : Nat :=
  i + ((s.drop i).takeWhile pyIsSpace).length

/-- Whether the pattern matches with its leading `\n` at index `j`:
newline at `j`, a delegate token at `j+1`, at least one whitespace
character after the token, and at least two characters after the token
in total (so `\s+` and `.+?` can each consume one reaching `$`). -/
def matchAt (s : List Char) (j : Nat) : Bool :=
  (s.get? j == some '\n') &&
    match tokenEndAt s (j + 1) with
    | some p =>
      (match s.get? p with
       | some c => pyIsSpace c
       | none => false) && decide (p + 2 ≤ s.length)
    | none => false

/-- End index (exclusive) of the matched group whose `\n` is at `j`:
the lazy `.+?$` stops just before a final newline when one exists
beyond the whitespace run, and otherwise at the end of the string. -/
def matchEnd (s : List Char) (j : Nat) : Nat :=
  match tokenEndAt s (j + 1) with
  | some p =>
    let m := wsRunEnd s p
    if m = s.length then s.length
    else if s.getLast? == some '\n' then s.length - 1
    else s.length
  | none => s.length

/-- `extract_agent_command(response)`: search for the leftmost match;
on a hit return `(response[:match.start()].rstrip(),
match.group(1).strip())`, otherwise `(response, None)`. -/
def extract_agent_command (s : List Char) : List Char × Option (List Char) :=
  match (List.range s.length).find? (fun j => matchAt s j) with
  | some j =>
    (pyRstrip (s.take j), some (pyStrip ((s.drop (j + 1)).take (matchEnd s j - (j + 1)))))
  | none => (s, none)

/-! ### Router (`router.py`) -/

/-- Exact "starts with" on exploded strings (`str.startswith` after the
message has already been lowered). -/
def startsWithChars : List Char → List Char → Bool
  | [], _ => true
  | _ :: _, [] => false
  | a :: as, b :: bs => (a == b) && startsWithChars as bs

/-- `Router.route(message, context)`: `message.lower().strip()` starts
with `/local` or `/junior` goes to the local model, everything else to
Claude.  The conversation context is ignored by the source. -/
def route (message : List Char) : AgentType × String :=
  let message_lower := pyStrip (message.map Char.toLower)
  if startsWithChars ['/', 'l', 'o', 'c', 'a', 'l'] message_lower ||
      startsWithChars ['/', 'j', 'u', 'n', 'i', 'o', 'r'] message_lower then
    (AgentType.LOCAL_FAST, "delegation to Junior Engineer")
  else
    (AgentType.CLAUDE_CODE, "Senior Engineer")

/-! ### The multi-hop loop (`cli.py process_message`) -/

/-- The `f"/claude The Junior Engineer responded:\n\n{clean_response}"`
auto-bounce message. -/
def juniorBounce (clean : List Char) : List Char :=
  "/claude The Junior Engineer responded:\n\n".data ++ clean

/-- Body of `process_message`'s `while current_message and hop_count <
max_hops` loop.  `reply i` is the streamed text collected on hop `i+1`
(the loop records nothing here beyond what the claims need: the hop
count and whether the loop exited through the senior-no-directive
`break`).  Returns `(hop_count, natural_stop)`. -/
def runHops (reply : Nat → List Char) (hopsDone : Nat) (remaining : Nat)
    (msg : List Char) : Nat × Bool :=
  match remaining with
  | 0 => (hopsDone, false)
  | remaining + 1 =>
    if msg.isEmpty then (hopsDone, false)
    else
      let agent_type := (route msg).1
      let response := reply hopsDone
      let extracted := extract_agent_command response
      match extracted.2 with
      | some cmd => runHops reply (hopsDone + 1) remaining cmd
      | none =>
        if agent_type == AgentType.LOCAL_FAST || agent_type == AgentType.LOCAL_SPECIALIZED
        then runHops reply (hopsDone + 1) remaining (juniorBounce extracted.1)
        else (hopsDone + 1, true)

/-- `process_message(orch, message, max_hops)`: run the hop loop, then
report the "Maximum agent hops reached" warning exactly when
`hop_count >= max_hops`.  Result: `(hop_count, natural_stop,
max_hops_reported)`. -/
def process_message (reply : Nat → List Char) (max_hops : Nat) (message : List Char) :
    Nat × Bool × Bool :=
  let r := runHops reply 0 max_hops message
  (r.1, r.2, decide (max_hops ≤ r.1))

/-! ### Streaming effect on the conversation (`orchestrator.py`) -/

/-- How a `chat_stream` invocation ends: the agent's stream is consumed
to completion, or it is aborted mid-flight (an exception or a
cancellation that closes the generator). -/
inductive StreamOutcome where
  | completed
  | aborted
deriving DecidableEq, Repr

/-- The effect of `Weaver.chat_stream(message)` on the conversation:
the user turn is appended up front (with the routing reason in its
metadata); `chunks` are the text fragments received before the outcome;
the `finally` block appends the accumulated text as an assistant turn
whenever it is non-empty — on normal completion and on an abort alike,
since `finally` also runs when the generator is torn down. -/
def chat_stream_effect (c : ConversationManager) (message reason : String)
    (agent : AgentType) (chunks : List String) (outcome : StreamOutcome)
    (now : String) : ConversationManager :=
  let c1 := add_user_message c message [("routing_reason", reason)] now
  let full_response := String.join chunks
  match outcome with
  | .completed =>
    if full_response == "" then c1 else add_assistant_message c1 full_response agent [] now
  | .aborted =>
    if full_response == "" then c1 else add_assistant_message c1 full_response agent [] now

/-! ### Declarative characterizations and spec-side notions -/

/-- Declarative reading of a successful `AGENT_COMMAND_PATTERN` search:
some index `j` holds a newline immediately followed by `/`, a delegate
token (case-insensitively), at least one whitespace character, and at
least one further character, the match running to the end of the
reply. -/
def directiveFound (s : List Char) : Prop :=
  ∃ j, s.get? j = some '\n' ∧
    ∃ t, t ∈ delegateTokens ∧ s.get? (j + 1) = some '/' ∧
      startsCI t (s.drop (j + 2)) = true ∧
      (∃ c, s.get? (j + 2 + t.length) = some c ∧ pyIsSpace c = true) ∧
      j + 4 + t.length ≤ s.length

/-- The final line of a reply (everything after the last newline). -/
def lastLine (s : List Char) : List Char :=
  (s.reverse.takeWhile (fun c => c != '\n')).reverse

/-- Modelled from the spec: "a line at the very end of an agent's reply
matching `<delegate-token> <free text>`" — the line begins with a
delegate token followed by whitespace and some free text.  Used only to
state what the specification asserts about `extract_agent_command`. -/
def spec_directive_line (l : List Char) : Bool :=
  match tokenEndAt l 0 with
  | some p =>
    (match l.get? p with
     | some c => pyIsSpace c
     | none => false) && decide (p + 2 ≤ l.length)
  | none => false

/-- The boolean form of the spec invariant "`producing_agent` is set if
and only if `role == assistant`" over a whole conversation. -/
def agent_role_inv (c : ConversationManager) : Bool :=
  c.messages.all (fun m => m.agent.isSome == (m.role == "assistant"))

/-! ### Concrete fixtures used by counterexamples and witnesses -/

/-- Turn limit 1 with two system messages appended: `add_system_message`
never trims, so the length is already 2. -/
def c1pre : ConversationManager :=
  add_system_message (add_system_message (mkConversation 1 "s") "a" "t1") "b" "t2"

/-- One user append on `c1pre`: the degenerate trim branch keeps only
`system_msgs[-1:]`, dropping the older system message. -/
def c1post : ConversationManager :=
  add_user_message c1pre "u" [] "t3"

/-- Reply schedule for the hop loop: four senior replies ending in a
`/claude` directive, then a plain senior reply (a natural stop). -/
def c2reply : Nat → List Char :=
  fun i => if i < 4 then "Working.\n/claude continue please".data else "All done.".data

/-- A small conversation exercising every `Message` field. -/
def c3ex : ConversationManager :=
  ⟨[⟨"system", "be kind", none, "t1", []⟩,
    ⟨"assistant", "hello", some AgentType.CLAUDE_CODE, "t2", [("k", "v")]⟩,
    ⟨"user", "hi", none, "t3", [("routing_reason", "Senior Engineer")]⟩],
   100, "sid"⟩

/-- A reply whose final line is plain text but which still matches the
DOTALL pattern at the earlier newline. -/
def c4bad : List Char := "ok\n/local fix\nextra".data

/-- A reply with no newline at all: never matched by the pattern. -/
def c4plain : List Char := ['h', 'i']

/-- Two system messages whose contents together exceed a 3-character
budget: the eviction loop of `get_context_for_agent` never exits. -/
def c7ex : ConversationManager :=
  ⟨[⟨"system", "aaaaa", none, "t", []⟩, ⟨"system", "bbbbb", none, "t", []⟩], 100, "sid"⟩

/-- One system message and two user messages. -/
def c9ex : ConversationManager :=
  ⟨[⟨"system", "s", none, "t", []⟩,
    ⟨"user", "u1", none, "t", []⟩,
    ⟨"user", "u2", none, "t", []⟩], 100, "sid"⟩

/-- Notepad scenario states: write "x" then "y" under the same id,
then delete twice. -/
def mem0 : WeaverMemory := ⟨"weaver", []⟩

def mem1 : WeaverMemory := (write_shared mem0 "x" (some "a") "f1" [] "t1").1

def mem2 : WeaverMemory := (write_shared mem1 "y" (some "a") "f2" [] "t2").1

def mem3 : WeaverMemory := (delete_shared mem2 "a").1

def mem4 : WeaverMemory := (delete_shared mem3 "a").1

/-! ### Helper lemmas -/

theorem beq_false_of_bne {α} [BEq α] {a b : α} (h : (a != b) = true) : (a == b) = false := by
  simpa [bne] using h

theorem bne_false_of_beq {α} [BEq α] {a b : α} (h : (a == b) = true) : (a != b) = false := by
  simp [bne, h]

theorem filter_map_of {α β : Type} (f : α → β) (p : β → Bool) (q : α → Bool) (l : List α)
    (h : ∀ x, p (f x) = q x) : (l.map f).filter p = (l.filter q).map f := by
  induction l with
  | nil => rfl
  | cons x xs ih =>
    simp only [List.map_cons, List.filter_cons, h x]
    cases hq : q x <;> simp [hq, ih]

theorem mem_pySliceFromNeg {α} {k : Int} {l : List α} {x : α}
    (h : x ∈ pySliceFromNeg k l) : x ∈ l := by
  unfold pySliceFromNeg at h
  split at h <;> exact List.drop_subset _ _ h

theorem trim_mem {c : ConversationManager} {x : Message}
    (h : x ∈ (trim_history c).messages) : x ∈ c.messages := by
  unfold trim_history at h
  dsimp only at h
  split at h
  · exact h
  · split at h
    · rcases List.mem_append.mp h with h' | h'
      · exact (List.mem_filter.mp h').1
      · exact (List.mem_filter.mp (mem_pySliceFromNeg h')).1
    · exact (List.mem_filter.mp (mem_pySliceFromNeg h)).1

theorem trim_len {c : ConversationManager} (h : 0 < c.max_history) :
    (trim_history c).messages.length ≤ c.max_history := by
  unfold trim_history
  dsimp only
  split
  · assumption
  · next hlen =>
    split
    · next hkeep =>
      have hs : (c.messages.filter (fun m => m.role == "system")).length < c.max_history := by
        omega
      simp only [List.length_append]
      unfold pySliceFromNeg
      rw [if_pos hkeep, List.length_drop]
      have ht : ((c.max_history : Int) -
          (c.messages.filter (fun m => m.role == "system")).length).toNat =
          c.max_history - (c.messages.filter (fun m => m.role == "system")).length := by
        omega
      rw [ht]
      omega
    · next hkeep =>
      unfold pySliceFromNeg
      rw [if_pos (by exact_mod_cast h), List.length_drop]
      have ht : ((c.max_history : Int)).toNat = c.max_history := by omega
      rw [ht]
      omega

theorem trim_system {c : ConversationManager}
    (h : (c.messages.filter (fun m => m.role == "system")).length ≤ c.max_history) :
    (trim_history c).messages.filter (fun m => m.role == "system") =
      c.messages.filter (fun m => m.role == "system") := by
  unfold trim_history
  dsimp only
  split
  · rfl
  · next hlen =>
    split
    · next hkeep =>
      show ((c.messages.filter (fun m => m.role == "system")) ++ _).filter _ = _
      rw [List.filter_append]
      have h1 : (c.messages.filter (fun m => m.role == "system")).filter
          (fun m => m.role == "system") = c.messages.filter (fun m => m.role == "system") :=
        List.filter_eq_self.mpr (fun a ha => (List.mem_filter.mp ha).2)
      have h2 : (pySliceFromNeg ((c.max_history : Int) -
            (c.messages.filter (fun m => m.role == "system")).length)
            (c.messages.filter (fun m => m.role != "system"))).filter
            (fun m => m.role == "system") = [] := by
        refine List.filter_eq_nil_iff.mpr (fun a ha => ?_)
        have := (List.mem_filter.mp (mem_pySliceFromNeg ha)).2
        simp only [beq_false_of_bne this, Bool.false_eq_true, not_false_eq_true]
      rw [h1, h2, List.append_nil]
    · next hkeep =>
      have hsk : c.max_history ≤
          (c.messages.filter (fun m => m.role == "system")).length := by omega
      have hseq : (c.messages.filter (fun m => m.role == "system")).length =
          c.max_history := le_antisymm h hsk
      have hslice : pySliceFromNeg (c.max_history : Int)
          (c.messages.filter (fun m => m.role == "system")) =
          c.messages.filter (fun m => m.role == "system") := by
        unfold pySliceFromNeg
        split
        · rw [show (c.messages.filter (fun m => m.role == "system")).length -
              ((c.max_history : Int)).toNat = 0 by omega]
          exact List.drop_zero _
        · rw [show ((-(c.max_history : Int))).toNat = 0 by omega]
          exact List.drop_zero _
      show (pySliceFromNeg _ _).filter _ = _
      rw [hslice]
      exact List.filter_eq_self.mpr (fun a ha => (List.mem_filter.mp ha).2)

theorem trim_id_of_le {c : ConversationManager}
    (h : c.messages.length ≤ c.max_history) : trim_history c = c := by
  unfold trim_history
  rw [if_pos h]

theorem from_dict_to_dict (now : String) (m : Message) (h : m.timestamp ≠ "") :
    Message.from_dict now (Message.to_dict m) = some m := by
  obtain ⟨role, content, agent, ts, md⟩ := m
  simp only [Message.to_dict, Message.from_dict] at *
  cases agent with
  | none =>
    simp only [Option.map_none', Option.getD_some]
    rw [if_neg h]
  | some a =>
    simp only [Option.map_some', Option.getD_some]
    cases a <;> simp [AgentType.value, AgentType.ofValue, if_neg h]

theorem mapOption_map_of {α β : Type} (f : α → β) (g : β → Option α) (l : List α)
    (h : ∀ x ∈ l, g (f x) = some x) : mapOption g (l.map f) = some l := by
  induction l with
  | nil => rfl
  | cons x xs ih =>
    simp only [List.map_cons, mapOption, h x (by simp)]
    rw [ih (fun y hy => h y (by simp [hy]))]

theorem roundtrip_messages (c : ConversationManager) (exported_at now freshSid : String)
    (h : ∀ m ∈ c.messages, m.timestamp ≠ "") :
    import_session now freshSid (export_session c exported_at) =
      some ⟨c.messages, 100, c.session_id⟩ := by
  unfold import_session export_session
  rw [mapOption_map_of Message.to_dict (Message.from_dict now) c.messages
    (fun m hm => from_dict_to_dict now m (h m hm))]
  rfl

theorem runHops_le (reply : Nat → List Char) (r : Nat) :
    ∀ (h : Nat) (msg : List Char), (runHops reply h r msg).1 ≤ h + r := by
  induction r with
  | zero => intro h msg; simp [runHops]
  | succ n ih =>
    intro h msg
    unfold runHops
    split
    · omega
    · dsimp only
      split
      · exact le_trans (ih (h + 1) _) (by omega)
      · split
        · exact le_trans (ih (h + 1) _) (by omega)
        · simp

theorem findIdx?_go_none {α : Type} (p : α → Bool) (l : List α) :
    (∀ x ∈ l, p x = false) → ∀ i, List.findIdx? p l i = none := by
  induction l with
  | nil => intro _ i; rfl
  | cons x xs ih =>
    intro h i
    simp only [List.findIdx?]
    rw [h x (by simp)]
    simp only [Bool.false_eq_true, if_false]
    exact ih (fun y hy => h y (by simp [hy])) (i + 1)

theorem evictChars_all_system (max_chars total : Nat) (msgs : List Message)
    (hsys : ∀ m ∈ msgs, (m.role != "system") = false)
    (hc : max_chars < total) (hl : 1 < msgs.length) :
    ∀ fuel, evictChars fuel max_chars total msgs = none := by
  intro fuel
  induction fuel with
  | zero => rfl
  | succ n ih =>
    unfold evictChars
    rw [if_pos ⟨hc, hl⟩, findIdx?_go_none _ msgs hsys 0]
    exact ih

theorem delegate_startsCI_unique {t₁ t₂ r : List Char}
    (h₁ : t₁ ∈ delegateTokens) (h₂ : t₂ ∈ delegateTokens)
    (s₁ : startsCI t₁ r = true) (s₂ : startsCI t₂ r = true) : t₁ = t₂ := by
  simp only [delegateTokens, List.mem_cons, List.not_mem_nil, or_false] at h₁ h₂
  rcases h₁ with rfl | rfl | rfl | rfl <;> rcases h₂ with rfl | rfl | rfl | rfl <;>
    first
      | rfl
      | (cases r with
         | nil => simp [tokClaude, tokLocal, tokSenior, tokJunior, startsCI] at s₁
         | cons b bs =>
           simp only [tokClaude, tokLocal, tokSenior, tokJunior, startsCI,
             Bool.and_eq_true, beq_iff_eq] at s₁ s₂
           exact absurd (s₁.1.trans s₂.1.symm) (by decide))

theorem matchAt_iff (s : List Char) (j : Nat) :
    matchAt s j = true ↔
      (s.get? j = some '\n' ∧
        ∃ t, t ∈ delegateTokens ∧ s.get? (j + 1) = some '/' ∧
          startsCI t (s.drop (j + 2)) = true ∧
          (∃ c, s.get? (j + 2 + t.length) = some c ∧ pyIsSpace c = true) ∧
          j + 4 + t.length ≤ s.length) := by
  constructor
  · intro h
    unfold matchAt at h
    rw [Bool.and_eq_true] at h
    obtain ⟨h1, h2⟩ := h
    have hnl : s.get? j = some '\n' := by simpa using h1
    refine ⟨hnl, ?_⟩
    rcases hte : tokenEndAt s (j + 1) with _ | p
    · rw [hte] at h2
      exact absurd h2 (by simp)
    · rw [hte] at h2
      rw [Bool.and_eq_true] at h2
      obtain ⟨hws, hlen⟩ := h2
      unfold tokenEndAt at hte
      split at hte
      · next hslash =>
        rw [Option.map_eq_some'] at hte
        obtain ⟨t, hfind, hp⟩ := hte
        have htmem := List.mem_of_find?_eq_some hfind
        have htci := List.find?_some hfind
        rcases hget : s.get? p with _ | c
        · rw [hget] at hws
          exact absurd hws (by simp)
        · rw [hget] at hws
          subst hp
          refine ⟨t, htmem, hslash, htci, ⟨c, hget, hws⟩, ?_⟩
          have := of_decide_eq_true hlen
          omega
      · exact absurd hte (by simp)
  · rintro ⟨hnl, t, htmem, hslash, hci, ⟨c, hc, hws⟩, hlen⟩
    unfold matchAt
    rw [Bool.and_eq_true]
    refine ⟨by rw [hnl]; rfl, ?_⟩
    have hte : tokenEndAt s (j + 1) = some (j + 2 + t.length) := by
      unfold tokenEndAt
      rw [if_pos hslash]
      rcases hfind : delegateTokens.find? (fun u => startsCI u (s.drop (j + 1 + 1))) with _ | t₀
      · rw [List.find?_eq_none] at hfind
        exact absurd hci (by simpa using hfind t htmem)
      · have h₀mem := List.mem_of_find?_eq_some hfind
        have h₀ci := List.find?_some hfind
        have heq : t₀ = t := delegate_startsCI_unique h₀mem htmem h₀ci hci
        subst heq
        rfl
    rw [hte]
    rw [Bool.and_eq_true]
    refine ⟨?_, ?_⟩
    · rw [show s.get? (j + 2 + t.length) = some c from hc]
      exact hws
    · exact decide_eq_true (by omega)

/-! ### Claim C1 -/

/-- Claim C1, corrected.  For a positive turn limit, `add_user_message`
and `add_assistant_message` leave at most `max_history` messages; all
system messages present before such an append are still present after
it provided their number does not exceed the limit; and
`add_system_message` preserves every existing message (appending one
system message) but is exempt from the limit, so the total may exceed
the limit after it. -/
theorem C1_trim_behaviour (c : ConversationManager) (content : String) (a : AgentType)
    (md : List (String × String)) (now : String) :
    (0 < c.max_history →
      (add_user_message c content md now).messages.length ≤ c.max_history ∧
      (add_assistant_message c content a md now).messages.length ≤ c.max_history) ∧
    ((c.messages.filter (fun m => m.role == "system")).length ≤ c.max_history →
      (add_user_message c content md now).messages.filter (fun m => m.role == "system") =
        c.messages.filter (fun m => m.role == "system") ∧
      (add_assistant_message c content a md now).messages.filter
          (fun m => m.role == "system") =
        c.messages.filter (fun m => m.role == "system")) ∧
    (add_system_message c content now).messages =
      c.messages ++ [⟨"system", content, none, now, []⟩] := by
  refine ⟨fun h => ⟨trim_len h, trim_len h⟩, fun h => ?_, rfl⟩
  have huser : (c.messages ++ [(⟨"user", content, none, now, md⟩ : Message)]).filter
      (fun m => m.role == "system") = c.messages.filter (fun m => m.role == "system") := by
    rw [List.filter_append]
    simp [List.filter]
  have hassistant : (c.messages ++ [(⟨"assistant", content, some a, now, md⟩ : Message)]).filter
      (fun m => m.role == "system") = c.messages.filter (fun m => m.role == "system") := by
    rw [List.filter_append]
    simp [List.filter]
  constructor
  · rw [show (add_user_message c content md now).messages.filter (fun m => m.role == "system") =
        (trim_history { c with messages := c.messages ++ [⟨"user", content, none, now, md⟩] }).messages.filter
          (fun m => m.role == "system") from rfl]
    rw [trim_system (c := { c with messages := c.messages ++ [⟨"user", content, none, now, md⟩] })
      (by simpa [huser] using h)]
    exact huser
  · rw [show (add_assistant_message c content a md now).messages.filter
        (fun m => m.role == "system") =
        (trim_history { c with
          messages := c.messages ++ [⟨"assistant", content, some a, now, md⟩] }).messages.filter
          (fun m => m.role == "system") from rfl]
    rw [trim_system (c := { c with
      messages := c.messages ++ [⟨"assistant", content, some a, now, md⟩] })
      (by simpa [hassistant] using h)]
    exact hassistant

/-- Claim C1, counterexample to the claim as stated: with turn limit 1,
two `add_system_message` appends leave 2 messages (the bound is
violated after an append), and the subsequent `add_user_message` drops
the older system message (a system message present before an append is
gone after it). -/
theorem C1_counterexample :
    (c1pre.messages.length = 2 ∧ ¬ c1pre.messages.length ≤ 1) ∧
    ((⟨"system", "a", none, "t1", []⟩ : Message) ∈ c1pre.messages ∧
      (⟨"system", "a", none, "t1", []⟩ : Message) ∉ c1post.messages) := by
  decide

/-- Witness for `C1_trim_behaviour` at a concrete conversation. -/
theorem C1_witness :
    (add_user_message (mkConversation 2 "s") "hi" [] "t").messages.length ≤ 2 ∧
    (add_user_message (mkConversation 2 "s") "hi" [] "t").messages.filter
        (fun m => m.role == "system") =
      (mkConversation 2 "s").messages.filter (fun m => m.role == "system") :=
  ⟨((C1_trim_behaviour (mkConversation 2 "s") "hi" AgentType.CLAUDE_CODE [] "t").1
      (by decide)).1,
   ((C1_trim_behaviour (mkConversation 2 "s") "hi" AgentType.CLAUDE_CODE [] "t").2.1
      (by decide)).1⟩

/-! ### Claim C2 -/

/-- Claim C2, corrected.  `process_message` performs at most `max_hops`
route–invoke–record iterations, and the "max hops" condition is
reported exactly when the hop count reaches the bound — including when
the final hop ends in a natural stop, so the bound is never reached
silently. -/
theorem C2_hop_bound (reply : Nat → List Char) (max_hops : Nat) (message : List Char) :
    (process_message reply max_hops message).1 ≤ max_hops ∧
    ((process_message reply max_hops message).2.2 = true ↔
      (process_message reply max_hops message).1 = max_hops) := by
  have hle : (runHops reply 0 max_hops message).1 ≤ max_hops := by
    simpa using runHops_le reply max_hops 0 message
  refine ⟨hle, ?_⟩
  have hfst : (process_message reply max_hops message).1 =
      (runHops reply 0 max_hops message).1 := rfl
  rw [hfst]
  show decide (max_hops ≤ (runHops reply 0 max_hops message).1) = true ↔ _
  rw [decide_eq_true_eq]
  omega

/-- Claim C2, counterexample to the claim as stated: with the default
bound of 5 and four directive-carrying senior replies followed by a
plain senior reply, the fifth hop is a natural stop, yet the "max
hops" condition is still reported — refuting "exactly when the bound
is reached without a natural stop". -/
theorem C2_counterexample :
    (process_message c2reply 5 "hi".data).2.1 = true ∧
    ¬ ((process_message c2reply 5 "hi".data).2.2 = true ↔
        ((process_message c2reply 5 "hi".data).1 = 5 ∧
          (process_message c2reply 5 "hi".data).2.1 = false)) := by
  decide

/-! ### Claim C3 -/

/-- Claim C3, confirmed.  Importing the file produced by exporting a
conversation yields a conversation with the same session id and the
same message sequence — role, content, agent attribution, timestamp (at
the serialized precision) and metadata all equal.  The hypothesis that
serialized timestamps are non-empty reflects that `datetime.isoformat`
never returns the empty string (`from_dict` maps a falsy timestamp to
`datetime.now()`). -/
theorem C3_roundtrip (c : ConversationManager) (exported_at now freshSid : String)
    (h : ∀ m ∈ c.messages, m.timestamp ≠ "") :
    ∃ c2, import_session now freshSid (export_session c exported_at) = some c2 ∧
      c2.session_id = c.session_id ∧ c2.messages = c.messages :=
  ⟨⟨c.messages, 100, c.session_id⟩, roundtrip_messages c exported_at now freshSid h, rfl, rfl⟩

/-- Witness for `C3_roundtrip` at a concrete conversation exercising
every `Message` field. -/
theorem C3_witness :
    ∃ c2, import_session "now" "fresh" (export_session c3ex "exp") = some c2 ∧
      c2.session_id = c3ex.session_id ∧ c2.messages = c3ex.messages :=
  C3_roundtrip c3ex "exp" "now" "fresh" (by decide)

/-! ### Claim C4 -/

/-- Claim C4, corrected.  `extract_agent_command` reports a directive
exactly when some newline in the reply is immediately followed by a
case-insensitive delegate token (`/claude`, `/local`, `/senior`,
`/junior`), then at least one whitespace character and at least one
further character, the match running to the end of the reply (the
DOTALL pattern lets the directive span multiple lines, and a reply with
no preceding newline is never a directive); a reply with no such match
is returned unchanged with no directive. -/
theorem C4_directive_exactness (s : List Char) :
    ((extract_agent_command s).2.isSome = true ↔ directiveFound s) ∧
    ((extract_agent_command s).2 = none → extract_agent_command s = (s, none)) := by
  constructor
  · unfold extract_agent_command
    rcases hfind : (List.range s.length).find? (fun j => matchAt s j) with _ | j
    · simp only [Option.isSome_none, Bool.false_eq_true, false_iff]
      rintro ⟨j, hnl, t, htmem, hslash, hci, hcws, hlen⟩
      have hj : j < s.length := by
        by_contra hge
        rw [List.get?_eq_none.mpr (by omega)] at hnl
        exact absurd hnl (by simp)
      have hm : matchAt s j = true :=
        (matchAt_iff s j).mpr ⟨hnl, t, htmem, hslash, hci, hcws, hlen⟩
      have := List.find?_eq_none.mp hfind j (List.mem_range.mpr hj)
      exact this hm
    · simp only [Option.isSome_some, true_iff]
      have hm := List.find?_some hfind
      obtain ⟨hnl, t, htmem, hslash, hci, hcws, hlen⟩ := (matchAt_iff s j).mp hm
      exact ⟨j, hnl, t, htmem, hslash, hci, hcws, hlen⟩
  · intro h
    unfold extract_agent_command at h ⊢
    rcases hfind : (List.range s.length).find? (fun j => matchAt s j) with _ | j
    · rfl
    · rw [hfind] at h
      exact absurd h (by simp)

/-- Claim C4, counterexample to the claim as stated: the reply
`"ok\n/local fix\nextra"` ends in the plain line `"extra"`, which does
not match `<delegate-token> <free text>`, yet `extract_agent_command`
does not return the reply unchanged — it extracts the multi-line
directive `"/local fix\nextra"`. -/
theorem C4_counterexample :
    (extract_agent_command c4bad).2 =
      some ['/', 'l', 'o', 'c', 'a', 'l', ' ', 'f', 'i', 'x', '\n', 'e', 'x', 't', 'r', 'a'] ∧
    spec_directive_line (lastLine c4bad) = false := by
  decide

/-- Witness for `C4_directive_exactness` on a reply with no match. -/
theorem C4_witness : extract_agent_command c4plain = (c4plain, none) :=
  (C4_directive_exactness c4plain).2 (by decide)

/-! ### Claim C5 -/

/-- Claim C5, corrected.  Aborting a streaming invocation mid-flight
does not discard the partial reply: the `finally` block commits the
accumulated text as an assistant turn whenever it is non-empty, on
abort just as on completion; only when the accumulated text is empty is
no assistant turn appended.  (Stated on a conversation with room so the
append is visible without trimming.) -/
theorem C5_abort_commits_accumulated (c : ConversationManager) (message reason : String)
    (agent : AgentType) (chunks : List String) (now : String) :
    (String.join chunks ≠ "" → c.messages.length + 2 ≤ c.max_history →
      (chat_stream_effect c message reason agent chunks .aborted now).messages =
        c.messages ++
          [⟨"user", message, none, now, [("routing_reason", reason)]⟩,
           ⟨"assistant", String.join chunks, some agent, now, []⟩]) ∧
    (String.join chunks = "" → c.messages.length + 1 ≤ c.max_history →
      (chat_stream_effect c message reason agent chunks .aborted now).messages =
        c.messages ++ [⟨"user", message, none, now, [("routing_reason", reason)]⟩]) := by
  constructor
  · intro hne hroom
    show (if (String.join chunks == "") = true then _ else
        add_assistant_message _ (String.join chunks) agent [] now).messages = _
    rw [if_neg (by simpa using hne)]
    unfold add_assistant_message add_user_message
    rw [trim_id_of_le (by simpa using by omega : ((({ c with
      messages := c.messages ++ [⟨"user", message, none, now, [("routing_reason", reason)]⟩] } :
        ConversationManager)).messages.length ≤ c.max_history))]
    rw [trim_id_of_le (by simp; omega)]
    simp
  · intro he hroom
    show (if (String.join chunks == "") = true then
        add_user_message c message [("routing_reason", reason)] now else _).messages = _
    rw [if_pos (by simp [he])]
    unfold add_user_message
    rw [trim_id_of_le (by simp; omega)]

/-- Claim C5, counterexample to the claim as stated: a stream aborted
after yielding `"Hel"` leaves an assistant turn containing the partial
text in the conversation — the caller does observe an assistant message
appended for that hop. -/
theorem C5_counterexample :
    ((chat_stream_effect (mkConversation 100 "s") "hi" "r" AgentType.CLAUDE_CODE
        ["Hel"] .aborted "t").messages.filter (fun m => m.role == "assistant")).length = 1 ∧
    (1 : Nat) ≠ 0 := by
  decide

/-- Witness for `C5_abort_commits_accumulated` at a concrete abort. -/
theorem C5_witness :
    (chat_stream_effect (mkConversation 100 "s") "hi" "r" AgentType.CLAUDE_CODE
        ["He", "l"] .aborted "t").messages =
      (mkConversation 100 "s").messages ++
        [⟨"user", "hi", none, "t", [("routing_reason", "r")]⟩,
         ⟨"assistant", String.join ["He", "l"], some AgentType.CLAUDE_CODE, "t", []⟩] :=
  (C5_abort_commits_accumulated (mkConversation 100 "s") "hi" "r" AgentType.CLAUDE_CODE
    ["He", "l"] "t").1 (by decide) (by decide)

/-! ### Claim C6 -/

/-- Claim C6, corrected.  After `write("x", id="a")`, `write("y",
id="a")`, `read("a")` returns `"y"` — but the second write shadows
rather than replaces the first note, and `delete("a")` removes only the
most recent note with that id, so a subsequent `read("a")` returns the
older `"x"`; only after a second delete does `read("a")` return
not-found. -/
theorem C6_notepad_scenario :
    read_shared mem2 "a" = some "y" ∧
    (delete_shared mem2 "a").2 = true ∧
    read_shared mem3 "a" = some "x" ∧
    read_shared mem4 "a" = none := by
  decide

/-- Claim C6, counterexample to the claim as stated: after the two
writes and one delete, `read("a")` returns `some "x"`, not
not-found. -/
theorem C6_counterexample :
    read_shared mem3 "a" = some "x" ∧ read_shared mem3 "a" ≠ none := by
  decide

/-! ### Claim C7 -/

/-- Claim C7 records a code bug: on a conversation whose window
consists of two system messages whose contents exceed the character
budget, the eviction loop of `get_context_for_agent` finds no
non-system message to pop, re-tests an unchanged condition and never
terminates — for every fuel bound the loop fails to exit, so the
function never returns the window the claim describes. -/
theorem C7_budget_loop_diverges :
    ∀ fuel : Nat, get_context_for_agent fuel c7ex AgentType.CLAUDE_CODE none (some 3) = none := by
  intro fuel
  show (evictChars fuel 3 (totalChars c7ex.messages) c7ex.messages).map
      (List.map to_api_format) = none
  rw [evictChars_all_system 3 (totalChars c7ex.messages) c7ex.messages
    (by decide) (by decide) (by decide) fuel]
  rfl

/-! ### Claim C8 -/

/-- Claim C8, confirmed.  The invariant "`producing_agent` is set iff
`role == assistant`" is preserved by `add_user_message`,
`add_assistant_message` and `add_system_message`, by `fork`, and by
`import_session` applied to an exported conversation satisfying it. -/
theorem C8_agent_iff_assistant (c : ConversationManager) (content : String) (a : AgentType)
    (md : List (String × String)) (now suffix exported_at now2 freshSid : String)
    (h : agent_role_inv c = true) :
    agent_role_inv (add_user_message c content md now) = true ∧
    agent_role_inv (add_assistant_message c content a md now) = true ∧
    agent_role_inv (add_system_message c content now) = true ∧
    agent_role_inv (fork c suffix) = true ∧
    ((∀ m ∈ c.messages, m.timestamp ≠ "") →
      ∀ c2, import_session now2 freshSid (export_session c exported_at) = some c2 →
        agent_role_inv c2 = true) := by
  have hmem := List.all_eq_true.mp h
  refine ⟨?_, ?_, ?_, ?_, ?_⟩
  · refine List.all_eq_true.mpr (fun x hx => ?_)
    have hx2 : x ∈ c.messages ++ [(⟨"user", content, none, now, md⟩ : Message)] :=
      trim_mem hx
    rcases List.mem_append.mp hx2 with hx' | hx'
    · exact hmem x hx'
    · rw [List.mem_singleton.mp hx']
      rfl
  · refine List.all_eq_true.mpr (fun x hx => ?_)
    have hx2 : x ∈ c.messages ++ [(⟨"assistant", content, some a, now, md⟩ : Message)] :=
      trim_mem hx
    rcases List.mem_append.mp hx2 with hx' | hx'
    · exact hmem x hx'
    · rw [List.mem_singleton.mp hx']
      rfl
  · refine List.all_eq_true.mpr (fun x hx => ?_)
    have hx2 : x ∈ c.messages ++ [(⟨"system", content, none, now, []⟩ : Message)] := hx
    rcases List.mem_append.mp hx2 with hx' | hx'
    · exact hmem x hx'
    · rw [List.mem_singleton.mp hx']
      rfl
  · show (c.messages.map _).all _ = true
    have hf : (fun m : Message =>
        (⟨m.role, m.content, m.agent, m.timestamp, m.metadata⟩ : Message)) = id :=
      funext fun m => rfl
    rw [hf, List.map_id]
    exact h
  · intro ht c2 himp
    rw [roundtrip_messages c exported_at now2 freshSid ht] at himp
    injection himp with himp
    rw [← himp]
    exact h

/-- Witness for `C8_agent_iff_assistant` at a concrete conversation. -/
theorem C8_witness :
    agent_role_inv (add_user_message c3ex "q" [] "t9") = true ∧
    agent_role_inv (add_system_message c3ex "note" "t9") = true :=
  ⟨(C8_agent_iff_assistant c3ex "q" AgentType.LOCAL_FAST [] "t9" "sfx" "e" "n" "f"
      (by decide)).1,
   (C8_agent_iff_assistant c3ex "note" AgentType.LOCAL_FAST [] "t9" "sfx" "e" "n" "f"
      (by decide)).2.2.1⟩

/-! ### Claim C9 -/

/-- Claim C9, confirmed.  With a positive `max_messages` bound `k` and
no character budget: when the system-message count is below `k`, the
window has at most `k` entries and consists of all system messages plus
the most recent non-system messages; and when the system count reaches
`k` (second conjunct, a concrete run with `k = 1` and one system plus
two user messages) the returned window has more than `k` entries. -/
theorem C9_message_window :
    (∀ (fuel : Nat) (c : ConversationManager) (agent : AgentType) (k : Nat),
      0 < k →
      (c.messages.filter (fun m => m.role == "system")).length < k →
      ∃ res, get_context_for_agent fuel c agent (some k) none = some res ∧
        res.length ≤ k ∧
        res.filter (fun p => p.1 == "system") =
          (c.messages.filter (fun m => m.role == "system")).map to_api_format ∧
        res.filter (fun p => p.1 != "system") =
          ((c.messages.filter (fun m => m.role != "system")).drop
            ((c.messages.filter (fun m => m.role != "system")).length -
              (if c.messages.length ≤ k then
                  (c.messages.filter (fun m => m.role != "system")).length
                else k - (c.messages.filter (fun m => m.role == "system")).length))).map
            to_api_format) ∧
    (∃ res, get_context_for_agent 0 c9ex AgentType.CLAUDE_CODE (some 1) none = some res ∧
      1 < res.length) := by
  constructor
  · intro fuel c agent k hk hs
    unfold get_context_for_agent
    dsimp only
    by_cases hlen : c.messages.length ≤ k
    · rw [if_neg (fun hc => absurd hc.2 (by omega))]
      refine ⟨_, rfl, ?_, ?_, ?_⟩
      · simpa using hlen
      · rw [filter_map_of to_api_format _ (fun m => m.role == "system") _ (fun x => rfl)]
      · rw [filter_map_of to_api_format _ (fun m => m.role != "system") _ (fun x => rfl)]
        rw [if_pos hlen, Nat.sub_self, List.drop_zero]
    · rw [if_pos ⟨by omega, by omega⟩]
      have hkeep : (0 : Int) <
          (k : Int) - (c.messages.filter (fun m => m.role == "system")).length := by
        omega
      have hslice : pySliceFromNeg
          ((k : Int) - (c.messages.filter (fun m => m.role == "system")).length)
          (c.messages.filter (fun m => m.role != "system")) =
          (c.messages.filter (fun m => m.role != "system")).drop
            ((c.messages.filter (fun m => m.role != "system")).length -
              (k - (c.messages.filter (fun m => m.role == "system")).length)) := by
        unfold pySliceFromNeg
        rw [if_pos hkeep]
        congr 1
        omega
      rw [hslice]
      refine ⟨_, rfl, ?_, ?_, ?_⟩
      · simp only [List.length_map, List.length_append, List.length_drop]
        omega
      · rw [filter_map_of to_api_format _ (fun m => m.role == "system") _ (fun x => rfl)]
        rw [List.filter_append]
        have hsys_self : (c.messages.filter (fun m => m.role == "system")).filter
            (fun m => m.role == "system") =
            c.messages.filter (fun m => m.role == "system") :=
          List.filter_eq_self.mpr (fun x hx => (List.mem_filter.mp hx).2)
        have hdrop_nil : ((c.messages.filter (fun m => m.role != "system")).drop
            ((c.messages.filter (fun m => m.role != "system")).length -
              (k - (c.messages.filter (fun m => m.role == "system")).length))).filter
            (fun m => m.role == "system") = [] := by
          refine List.filter_eq_nil_iff.mpr (fun x hx => ?_)
          have hb := (List.mem_filter.mp (List.drop_subset _ _ hx)).2
          simp only [beq_false_of_bne hb, Bool.false_eq_true, not_false_eq_true]
        rw [hsys_self, hdrop_nil, List.append_nil]
      · rw [filter_map_of to_api_format _ (fun m => m.role != "system") _ (fun x => rfl)]
        rw [List.filter_append]
        have hsys_nil : (c.messages.filter (fun m => m.role == "system")).filter
            (fun m => m.role != "system") = [] := by
          refine List.filter_eq_nil_iff.mpr (fun x hx => ?_)
          have hb := (List.mem_filter.mp hx).2
          simp only [bne_false_of_beq hb, Bool.false_eq_true, not_false_eq_true]
        have hdrop_self : ((c.messages.filter (fun m => m.role != "system")).drop
            ((c.messages.filter (fun m => m.role != "system")).length -
              (k - (c.messages.filter (fun m => m.role == "system")).length))).filter
            (fun m => m.role != "system") =
            (c.messages.filter (fun m => m.role != "system")).drop
              ((c.messages.filter (fun m => m.role != "system")).length -
                (k - (c.messages.filter (fun m => m.role == "system")).length)) :=
          List.filter_eq_self.mpr (fun x hx =>
            (List.mem_filter.mp (List.drop_subset _ _ hx)).2)
        rw [hsys_nil, hdrop_self, List.nil_append, if_neg hlen]
  · exact ⟨[("system", "s"), ("user", "u1"), ("user", "u2")], by decide, by decide⟩

/-- Witness for the universally quantified part of `C9_message_window`
at a concrete conversation and bound. -/
theorem C9_witness :
    ∃ res, get_context_for_agent 0 c9ex AgentType.CLAUDE_CODE (some 2) none = some res ∧
      res.length ≤ 2 ∧
      res.filter (fun p => p.1 == "system") =
        (c9ex.messages.filter (fun m => m.role == "system")).map to_api_format ∧
      res.filter (fun p => p.1 != "system") =
        ((c9ex.messages.filter (fun m => m.role != "system")).drop
          ((c9ex.messages.filter (fun m => m.role != "system")).length -
            (if c9ex.messages.length ≤ 2 then
                (c9ex.messages.filter (fun m => m.role != "system")).length
              else 2 - (c9ex.messages.filter (fun m => m.role == "system")).length))).map
          to_api_format :=
  C9_message_window.1 0 c9ex AgentType.CLAUDE_CODE 2 (by decide) (by decide)

/-! ### Claim C10 -/

/-- Claim C10, confirmed.  When the concatenation of all streamed
chunks is empty, `chat_stream_effect` appends no assistant turn: the
conversation ends exactly as after the user append alone, whatever the
stream outcome. -/
theorem C10_empty_stream (c : ConversationManager) (message reason : String)
    (agent : AgentType) (chunks : List String) (outcome : StreamOutcome) (now : String)
    (h : String.join chunks = "") :
    chat_stream_effect c message reason agent chunks outcome now =
      add_user_message c message [("routing_reason", reason)] now := by
  unfold chat_stream_effect
  cases outcome <;> simp [h]

/-- Witness for `C10_empty_stream` on an empty chunk stream. -/
theorem C10_witness :
    chat_stream_effect (mkConversation 100 "s") "ping" "r" AgentType.LOCAL_FAST []
        .completed "t" =
      add_user_message (mkConversation 100 "s") "ping" [("routing_reason", "r")] "t" :=
  C10_empty_stream (mkConversation 100 "s") "ping" "r" AgentType.LOCAL_FAST [] .completed "t"
    rfl

end Weaver
